import Mathlib

/-!
Shallow embedding of the ChronoID reference generator
(`src/simulation/chrono_sim/src/generator.rs`) and the encoding/decoding
helpers used by its verification binaries.  Machine integers (`u32`, `u64`,
`u128`, `usize`) are embedded as `Nat` with explicit `% 2^w` at every point
where the Rust code wraps, and fallible operations (shifts whose count can
reach the bit width, which panic in debug builds) return `Option`.
-/

namespace ChronoSim

/-- Modelled from the spec: the module `weyl` (constant `WEYL_MULTIPLIERS`,
re-exported by `generator.rs`) is not present under `src/`; the spec
describes it as "a fixed table of large odd 64-bit constants derived from an
irrational (golden-ratio) rotation".  We model entry `i` as the `i`-th odd
multiple of the 64-bit golden-ratio constant, reduced to 64 bits; every
entry is a large odd 64-bit value, which is all any theorem below uses. -/
def WEYL_MULTIPLIERS (i : ℕ) : ℕ :=
  (0x9E3779B97F4A7C15 * (2 * i + 1)) % 2 ^ 64

/-- Mode A second-precision time width (`TIME_BITS` in `generator.rs`). -/
def TIME_BITS : ℕ := 33

/-- Mode A second-precision node width (`NODE_BITS`). -/
def NODE_BITS : ℕ := 16

/-- Mode A second-precision sequence width (`SEQ_BITS`). -/
def SEQ_BITS : ℕ := 15

/-- `TIME_MASK` from `generator.rs`. -/
def TIME_MASK : ℕ := (1 <<< TIME_BITS) - 1

/-- `NODE_MASK` from `generator.rs`. -/
def NODE_MASK : ℕ := (1 <<< NODE_BITS) - 1

/-- `SEQ_MASK` from `generator.rs`. -/
def SEQ_MASK : ℕ := (1 <<< SEQ_BITS) - 1

/-- `Persona` struct: a generator's active identity. -/
structure Persona where
  node_id : ℕ
  node_salt : ℕ
  node_idx : ℕ
  seq_offset : ℕ
  seq_idx : ℕ
  seq_salt : ℕ
deriving DecidableEq, Repr

/-- `Persona::new_random`: the `u128` pool drawn from the thread RNG is an
explicit input; field extraction follows the source shifts and masks. -/
def Persona.new_random (pool : ℕ) : Persona :=
  let pool := pool % 2 ^ 128
  { node_id := (pool % 2 ^ 64) &&& NODE_MASK
    node_salt := (pool >>> 16) % 2 ^ 64
    node_idx := ((pool >>> 80) % 2 ^ 64) % 128
    seq_offset := ((pool >>> 87) % 2 ^ 64) &&& SEQ_MASK
    seq_idx := ((pool >>> 103) % 2 ^ 64) % 128
    seq_salt := (pool >>> 110) % 2 ^ 64 }

/-- `Precision` enum. -/
inductive Precision where
  | Second
  | Microsecond
deriving DecidableEq, Repr

/-- `Mode` enum. -/
inductive Mode where
  | A
  | B
  | C
deriving DecidableEq, Repr

/-- `Config` struct. -/
structure Config where
  time_bits : ℕ
  node_bits : ℕ
  seq_bits : ℕ
  unit_us : ℕ
deriving DecidableEq, Repr

/-- `Config::new`. -/
def Config.new : Precision → Config
  | .Second => { time_bits := 33, node_bits := 16, seq_bits := 15, unit_us := 1000000 }
  | .Microsecond => { time_bits := 53, node_bits := 5, seq_bits := 5, unit_us := 1 }

/-- `Generator` struct (the two `AtomicU64` fields are plain naturals in this
single-caller embedding). -/
structure Generator where
  persona : Persona
  last_ts : ℕ
  sequence : ℕ
  mode : Mode
  config : Config
deriving DecidableEq, Repr

/-- `1u64 << n`: panics (debug) when `n ≥ 64`, otherwise wraps into 64 bits. -/
def shlChecked (x n : ℕ) : Option ℕ :=
  if n < 64 then some ((x <<< n) % 2 ^ 64) else none

/-- `x >> n` on `u64`: panics (debug) when `n ≥ 64`. -/
def shrChecked (x n : ℕ) : Option ℕ :=
  if n < 64 then some (x >>> n) else none

/-- `Generator::mix`, with the two shifts checked: `(1u64 << bits) - 1`
panics for `bits ≥ 64`, and `seed >> (64 - bits)` panics for `bits = 0`. -/
def Generator.mix (val bits p_idx salt : ℕ) : Option ℕ :=
  match shlChecked 1 bits with
  | none => none
  | some m =>
    let mask := m - 1
    let seed := WEYL_MULTIPLIERS (p_idx % 128)
    (if bits < 64 then (shrChecked seed (64 - bits)).map (fun s => s ||| 1)
     else some seed).map
      (fun mult => (((val * mult) % 2 ^ 64) ^^^ salt) &&& mask)

/-- The value of `Generator::mix` on its non-panicking domain
`0 < bits < 64` (see `Generator.mix_eq_some`); the generator's `assemble`
only ever calls `mix` with such widths. -/
def Generator.mixVal (val bits p_idx salt : ℕ) : ℕ :=
  let mask := (1 <<< bits) - 1
  let seed := WEYL_MULTIPLIERS (p_idx % 128)
  let mult := (seed >>> (64 - bits)) ||| 1
  (((val * mult) % 2 ^ 64) ^^^ salt) &&& mask

theorem Generator.mix_eq_some (val bits p_idx salt : ℕ) (h0 : 0 < bits)
    (h1 : bits < 64) :
    Generator.mix val bits p_idx salt = some (Generator.mixVal val bits p_idx salt) := by
  have h64 : 64 - bits < 64 := by omega
  have hlt : 1 <<< bits < 18446744073709551616 := by
    rw [Nat.shiftLeft_eq, one_mul]
    calc 2 ^ bits < 2 ^ 64 := Nat.pow_lt_pow_right (by norm_num) h1
    _ = 18446744073709551616 := by norm_num
  simp [Generator.mix, Generator.mixVal, shlChecked, shrChecked, h1, h64,
    Nat.mod_eq_of_lt hlt]

/-- `Generator::assemble`. -/
def Generator.assemble (g : Generator) (ts seq : ℕ) : ℕ :=
  let node_mask := (1 <<< g.config.node_bits) - 1
  let seq_mask := (1 <<< g.config.seq_bits) - 1
  let time_mask := (1 <<< g.config.time_bits) - 1
  let mixed_node :=
    if g.mode = Mode.C then g.persona.node_id &&& node_mask
    else Generator.mixVal g.persona.node_id g.config.node_bits g.persona.node_idx
      g.persona.node_salt
  let mixed_seq :=
    Generator.mixVal ((seq + g.persona.seq_offset) % 2 ^ 64) g.config.seq_bits
      g.persona.seq_idx g.persona.seq_salt
  let id1 := ((ts &&& time_mask) <<< (g.config.node_bits + g.config.seq_bits)) % 2 ^ 64
  let id2 := id1 ||| (((mixed_node &&& node_mask) <<< g.config.seq_bits) % 2 ^ 64)
  id2 ||| (mixed_seq &&& seq_mask)

/-- `Generator::new` (Mode A, second precision); `pool` is the RNG draw of
the initial persona. -/
def Generator.new (pool : ℕ) : Generator :=
  { persona := Persona.new_random pool
    last_ts := 0
    sequence := 0
    mode := Mode.A
    config := Config.new .Second }

/-- `Generator::new_mode_b`. -/
def Generator.new_mode_b (pool : ℕ) : Generator :=
  { persona := Persona.new_random pool
    last_ts := 0
    sequence := 0
    mode := Mode.B
    config := Config.new .Second }

/-- `Generator::new_mode_c`. -/
def Generator.new_mode_c (pool shard_id : ℕ) : Generator :=
  { persona := { Persona.new_random pool with node_id := shard_id }
    last_ts := 0
    sequence := 0
    mode := Mode.C
    config := Config.new .Second }

/-- `Generator::new_mode_c_us`. -/
def Generator.new_mode_c_us (pool shard_id : ℕ) : Generator :=
  { persona := { Persona.new_random pool with node_id := shard_id }
    last_ts := 0
    sequence := 0
    mode := Mode.C
    config := Config.new .Microsecond }

/-- `Generator::rotate_persona`; the fresh RNG draw is an explicit input. -/
def Generator.rotate_persona (g : Generator) (pool : ℕ) : Generator :=
  { g with persona := Persona.new_random pool }

/-- `Generator::rotate_params_only`. -/
def Generator.rotate_params_only (g : Generator) (pool : ℕ) : Generator :=
  let pool := pool % 2 ^ 128
  { g with persona :=
    { g.persona with
      node_salt := pool % 2 ^ 64
      node_idx := ((pool >>> 64) % 2 ^ 64) % 128
      seq_salt := (pool >>> 71) % 2 ^ 64
      seq_idx := ((pool >>> 80) % 2 ^ 64) % 128
      seq_offset := ((pool >>> 87) % 2 ^ 64) &&& ((1 <<< g.config.seq_bits) - 1) } }

/-- The Mode B overflow/rollback handler from `Generator::generate_at` and
`Generator::generate`: one Weyl step of the node id. -/
def modeBNodeStep (node_bits node_id : ℕ) : ℕ :=
  let mask := (1 <<< node_bits) - 1
  let step := (3535253579 &&& mask) ||| 1
  ((node_id + step) % 2 ^ 64) &&& mask

/-- `Generator::generate_at`; `pool` is the RNG draw consumed if the call
rotates the persona (Mode A overflow/rollback). -/
def Generator.generate_at (g : Generator) (ts_units pool : ℕ) : ℕ × Generator :=
  let last := g.last_ts
  let seq_mask := (1 <<< g.config.seq_bits) - 1
  if ts_units > last then
    let g1 := { g with last_ts := ts_units, sequence := 0 }
    (g1.assemble ts_units 0, g1)
  else if ts_units = last then
    let seq := (g.sequence + 1) &&& seq_mask
    let g1 := { g with sequence := seq }
    let g2 :=
      if seq = 0 then
        match g.mode with
        | Mode.A => g1.rotate_persona pool
        | Mode.B =>
          { g1 with persona :=
            { g1.persona with
              node_id := modeBNodeStep g.config.node_bits g1.persona.node_id } }
        | Mode.C => g1
      else g1
    (g2.assemble ts_units seq, g2)
  else
    let g1 :=
      match g.mode with
      | Mode.A => g.rotate_persona pool
      | Mode.B =>
        { g with persona :=
          { g.persona with
            node_id := modeBNodeStep g.config.node_bits g.persona.node_id } }
      | Mode.C => g
    let seq := (g1.sequence + 1) &&& seq_mask
    let g2 := { g1 with sequence := seq }
    (g2.assemble ts_units seq, g2)

/-- The fixed epoch used by `Generator::generate` (2020-01-01 in µs). -/
def epoch_us : ℕ := 1577836800 * 1000000

/-- Tick derivation in `Generator::generate`: saturating subtraction of the
epoch and division by the tick duration (`Nat` subtraction is saturating). -/
def tickOf (cfg : Config) (now_us : ℕ) : ℕ :=
  (now_us - epoch_us) / cfg.unit_us

/-- `Generator::generate`, with the wall clock modelled as the list of values
successive `SystemTime::now()` polls return (one value consumed per poll);
`none` models a run that exhausts the supplied readings, i.e. a Mode C wait
that never observes the clock advance.  Mode C's overflow and rollback arms
spin-poll the clock (dropping readings that do not break the loop, plus the
breaking reading itself) and then restart `generate` recursively, exactly as
the source does. -/
def generateClockFuel (pool : ℕ) : ℕ → Generator → List ℕ → Option (ℕ × Generator)
  | 0, _, _ => none
  | _ + 1, _, [] => none
  | fuel + 1, g, now :: rest =>
    let ts_units := tickOf g.config now
    let last := g.last_ts
    let seq_mask := (1 <<< g.config.seq_bits) - 1
    if ts_units > last then
      let g1 := { g with last_ts := ts_units, sequence := 0 }
      some (g1.assemble ts_units 0, g1)
    else if ts_units = last then
      let seq := (g.sequence + 1) &&& seq_mask
      let g1 := { g with sequence := seq }
      if seq = 0 then
        if g.mode = Mode.A then
          let g2 := g1.rotate_persona pool
          some (g2.assemble ts_units seq, g2)
        else if g.mode = Mode.B then
          let g2 := { g1 with persona :=
            { g1.persona with
              node_id := modeBNodeStep g.config.node_bits g1.persona.node_id } }
          some (g2.assemble ts_units seq, g2)
        else
          generateClockFuel pool fuel g1
            ((rest.dropWhile fun n => decide (tickOf g.config n ≤ g1.last_ts)).tail)
      else some (g1.assemble ts_units seq, g1)
    else
      if g.mode = Mode.A then
        let g1 := g.rotate_persona pool
        let seq := (g1.sequence + 1) &&& seq_mask
        let g2 := { g1 with sequence := seq }
        some (g2.assemble ts_units seq, g2)
      else if g.mode = Mode.B then
        let g1 := { g with persona :=
          { g.persona with
            node_id := modeBNodeStep g.config.node_bits g.persona.node_id } }
        let seq := (g1.sequence + 1) &&& seq_mask
        let g2 := { g1 with sequence := seq }
        some (g2.assemble ts_units seq, g2)
      else
        generateClockFuel pool fuel g
          ((rest.dropWhile fun n => decide (tickOf g.config n < last)).tail)

/-- `Generator::generate`, with the wall clock modelled as the list of
values successive `SystemTime::now()` polls return (one value consumed per
poll); `none` models a run that exhausts the supplied readings, i.e. a Mode
C wait that never observes the clock advance.  Mode C's overflow and
rollback arms spin-poll the clock (dropping the readings that do not break
the loop, plus the breaking reading itself) and then restart `generate`
recursively, exactly as the source does; since every restart consumes at
least one reading, `readings.length` bounds the recursion and serves as
structural fuel. -/
def Generator.generateClock (g : Generator) (pool : ℕ)
    (readings : List ℕ) : Option (ℕ × Generator) :=
  generateClockFuel pool readings.length g readings

/-- `generate_chrono32y`; wall-clock seconds and the 32-bit entropy draw are
explicit inputs. -/
def generate_chrono32y (now_secs entropy_draw : ℕ) : ℕ :=
  let secs_since_2020 := now_secs - 1577836800
  let year_offset := secs_since_2020 / 31557600
  let year := year_offset &&& 0xFF
  let entropy := (entropy_draw % 2 ^ 32) &&& 0x7FFFFF
  (year <<< 23) ||| entropy

/-- The Weyl step constant of `generate_chrono32y_mode_b`. -/
def STEP32 : ℕ := 0x9E377B ||| 1

/-- The 24-bit mask of `generate_chrono32y_mode_b`. -/
def MASK32 : ℕ := 0xFFFFFF

/-- One update of the shared counter in `generate_chrono32y_mode_b`
(single-caller embedding of the compare-and-swap loop). -/
def chrono32yStep (seq : ℕ) : ℕ :=
  ((seq + STEP32) % 2 ^ 64) &&& MASK32

/-- `generate_chrono32y_mode_b`: returns the id (built from the counter value
the successful compare-and-swap replaced) and the updated counter. -/
def generate_chrono32y_mode_b (now_secs seq : ℕ) : ℕ × ℕ :=
  let secs_since_2020 := now_secs - 1577836800
  let year_offset := secs_since_2020 / 31557600
  let year := year_offset &&& 0xFF
  ((year <<< 24) ||| (seq % 2 ^ 32), chrono32yStep seq)

/-- The counter of `generate_chrono32y_mode_b` after `i` calls. -/
def chrono32ySeqAt (init : ℕ) : ℕ → ℕ
  | 0 => init
  | i + 1 => chrono32yStep (chrono32ySeqAt init i)

/-- Uppercase hex digit, as produced by Rust's `{:08X}` formatting. -/
def toHexChar (d : ℕ) : Char :=
  if d < 10 then Char.ofNat (48 + d) else Char.ofNat (55 + d)

/-- `format_hyphenated_hex`: the eight uppercase hex digits of the 32-bit
value, most significant first (`format!("\x7b:08X\x7d", id)`), with a hyphen
between the two halves. -/
def format_hyphenated_hex (id : ℕ) : List Char :=
  let h := (List.range 8).map fun i => toHexChar ((id >>> (4 * (7 - i))) &&& 15)
  h.take 4 ++ [Char.ofNat 45] ++ h.drop 4

/-- Value of one hex digit character, both cases, as accepted by
`u32::from_str_radix(_, 16)`. -/
def hexVal (c : Char) : Option ℕ :=
  if 48 ≤ c.toNat ∧ c.toNat ≤ 57 then some (c.toNat - 48)
  else if 65 ≤ c.toNat ∧ c.toNat ≤ 70 then some (c.toNat - 55)
  else if 97 ≤ c.toNat ∧ c.toNat ≤ 102 then some (c.toNat - 87)
  else none

/-- `u32::from_str_radix(s, 16)`: rejects the empty string, allows one
leading plus sign followed by at least one digit, rejects any non-digit, and
fails (`PosOverflow`) as soon as the accumulator would exceed `u32::MAX`. -/
def from_str_radix16_u32 (s : List Char) : Option ℕ :=
  let digits : Option (List Char) :=
    match s with
    | [] => none
    | c :: rest => if c = Char.ofNat 43 then (if rest = [] then none else some rest) else some s
  match digits with
  | none => none
  | some ds =>
    ds.foldlM
      (fun acc c =>
        (hexVal c).bind fun d =>
          if acc * 16 + d < 2 ^ 32 then some (acc * 16 + d) else none)
      0

/-- `decode_hyphenated_hex` from `proof_sortability.rs`: remove every hyphen
(`s.replace("-", "")`), then parse as base-16 `u32`. -/
def decode_hyphenated_hex (s : List Char) : Option ℕ :=
  from_str_radix16_u32 (s.filter fun c => c ≠ Char.ofNat 45)

/-- The ids of `k` successive `generate_at t` calls, with RNG draws supplied
by the stream `pools` starting at index `c`. -/
def runIds (t : ℕ) (pools : ℕ → ℕ) : ℕ → ℕ → Generator → List ℕ
  | 0, _, _ => []
  | k + 1, c, g =>
    match g.generate_at t (pools c) with
    | (id, g1) => id :: runIds t pools k (c + 1) g1

/-- The generator state after `k` successive `generate_at t` calls. -/
def runState (t : ℕ) (pools : ℕ → ℕ) : ℕ → ℕ → Generator → Generator
  | 0, _, g => g
  | k + 1, c, g => runState t pools k (c + 1) (g.generate_at t (pools c)).2

/-- An external call in the Mode C maintenance scenario of C1: either a
`generate_at` or a `rotate_params_only`. -/
inductive OpC where
  | genAt (t pool : ℕ)
  | rotParams (pool : ℕ)

/-- Run a list of operations, collecting the ids the `generate_at` calls
return. -/
def runOps : Generator → List OpC → List ℕ × Generator
  | g, [] => ([], g)
  | g, OpC.genAt t pool :: ops =>
    match g.generate_at t pool with
    | (id, g1) =>
      match runOps g1 ops with
      | (ids, g2) => (id :: ids, g2)
  | g, OpC.rotParams pool :: ops => runOps (g.rotate_params_only pool) ops

/-- The rollback scenario of `proof_rollback.rs`: ten `generate_at(100)`
calls, one `generate_at(101)` call, then one thousand `generate_at(100)`
calls, on a fresh default generator whose RNG draws come from `p0` (initial
persona) and the stream `pools` (rotations). -/
def rollbackIds (p0 : ℕ) (pools : ℕ → ℕ) : List ℕ :=
  let g0 := Generator.new p0
  let g10 := runState 100 pools 10 0 g0
  runIds 100 pools 10 0 g0 ++
    (g10.generate_at 101 (pools 10)).1 ::
      runIds 100 pools 1000 11 (g10.generate_at 101 (pools 10)).2

/-- The node field of a second-precision id, extracted by shift and mask as
external routing logic does. -/
def nodeFieldS (id : ℕ) : ℕ := (id >>> SEQ_BITS) &&& NODE_MASK

/-- The time field of a second-precision id. -/
def timeFieldS (id : ℕ) : ℕ := id >>> (NODE_BITS + SEQ_BITS)

/-- The sequence field of a second-precision id. -/
def seqFieldS (id : ℕ) : ℕ := id &&& SEQ_MASK

theorem mixVal_lt (val bits p_idx salt : ℕ) :
    Generator.mixVal val bits p_idx salt < 2 ^ bits := by
  have h : (1 <<< bits) - 1 < 2 ^ bits := by
    rw [Nat.shiftLeft_eq, one_mul]
    exact Nat.sub_lt (Nat.pos_pow_of_pos bits (by norm_num)) (by norm_num)
  exact Nat.and_lt_two_pow _ h

theorem mixVal_mod_cancel (val bits p_idx salt : ℕ) :
    Generator.mixVal val bits p_idx salt &&& ((1 <<< bits) - 1) =
      Generator.mixVal val bits p_idx salt := by
  simp only [Generator.mixVal, Nat.and_assoc, Nat.and_self]

/-- An odd multiplier: `x ||| 1` always has its least bit set. -/
theorem or_one_odd (x : ℕ) : (x ||| 1) % 2 = 1 := by
  have h := Nat.mod_two_eq_one_iff_testBit_zero (x := x ||| 1)
  rw [h, Nat.testBit_or]
  simp

/-- Multiplication by an odd constant is injective modulo a power of two. -/
theorem mul_odd_modeq_cancel {m a b w : ℕ} (hm : m % 2 = 1)
    (h : a * m ≡ b * m [MOD 2 ^ w]) : a ≡ b [MOD 2 ^ w] := by
  have hcop : Nat.Coprime (2 ^ w) m := by
    have h2 : Nat.Coprime m 2 := Nat.coprime_two_right.mpr (Nat.odd_iff.mpr hm)
    exact (h2.pow_right w).symm
  exact Nat.ModEq.cancel_right_of_coprime (by simpa [Nat.Coprime] using hcop) h

/-- `Generator.mixVal` is injective modulo `2^bits` for every width below
64, because the normalized multiplier is forced odd. -/
theorem mixVal_inj (bits p_idx salt : ℕ) (h1 : bits ≤ 64) {a b : ℕ}
    (h : Generator.mixVal a bits p_idx salt = Generator.mixVal b bits p_idx salt) :
    a ≡ b [MOD 2 ^ bits] := by
  unfold Generator.mixVal at h
  set mult := (WEYL_MULTIPLIERS (p_idx % 128) >>> (64 - bits)) ||| 1 with hmult
  have hmask : (1 <<< bits) - 1 = 2 ^ bits - 1 := by rw [Nat.shiftLeft_eq, one_mul]
  rw [hmask, Nat.and_pow_two_sub_one_eq_mod, Nat.and_pow_two_sub_one_eq_mod] at h
  have hxor : ∀ x : ℕ, ((x ^^^ salt) % 2 ^ bits) = (x % 2 ^ bits) ^^^ (salt % 2 ^ bits) := by
    intro x
    rw [← Nat.and_pow_two_sub_one_eq_mod, ← Nat.and_pow_two_sub_one_eq_mod,
      ← Nat.and_pow_two_sub_one_eq_mod, Nat.and_xor_distrib_right]
  rw [hxor, hxor] at h
  have h2 : a * mult % 2 ^ 64 % 2 ^ bits = b * mult % 2 ^ 64 % 2 ^ bits := by
    have := congrArg (fun z => z ^^^ (salt % 2 ^ bits)) h
    simpa [Nat.xor_assoc] using this
  rw [Nat.mod_mod_of_dvd _ (pow_dvd_pow 2 h1), Nat.mod_mod_of_dvd _ (pow_dvd_pow 2 h1)] at h2
  exact mul_odd_modeq_cancel (or_one_odd _) h2

/-- Full-period orbit of an additive Weyl step: for an odd step, each value
below `2^w` is hit by exactly one index below `2^w`. -/
theorem weyl_orbit_existsUnique (w step init : ℕ) (hodd : step % 2 = 1)
    {v : ℕ} (hv : v < 2 ^ w) :
    ∃! i, i < 2 ^ w ∧ (init + i * step) % 2 ^ w = v := by
  have hN : 0 < 2 ^ w := Nat.pos_pow_of_pos w (by norm_num)
  set f : Fin (2 ^ w) → Fin (2 ^ w) :=
    fun i => ⟨(init + i.val * step) % 2 ^ w, Nat.mod_lt _ hN⟩ with hf
  have hinj : Function.Injective f := by
    intro i j hij
    have hmod : (init + i.val * step) % 2 ^ w = (init + j.val * step) % 2 ^ w :=
      congrArg Fin.val hij
    have hme : i.val * step ≡ j.val * step [MOD 2 ^ w] :=
      Nat.ModEq.add_left_cancel' init hmod
    have := (mul_odd_modeq_cancel hodd hme).eq_of_lt_of_lt i.isLt j.isLt
    exact Fin.ext this
  have hbij : Function.Bijective f := (Finite.injective_iff_bijective).mp hinj
  obtain ⟨i, hi⟩ := hbij.2 ⟨v, hv⟩
  refine ⟨i.val, ⟨i.isLt, congrArg Fin.val hi⟩, ?_⟩
  intro j hj
  have hiv : (init + i.val * step) % 2 ^ w = v := congrArg Fin.val hi
  have hj2 : f ⟨j, hj.1⟩ = f i := by
    apply Fin.ext
    show (init + j * step) % 2 ^ w = (init + i.val * step) % 2 ^ w
    rw [hj.2, hiv]
  exact congrArg Fin.val (hinj hj2)

/-- Decomposition of a second-precision `assemble` result into its packed
fields, with the sequence field explicit. -/
theorem assemble_decomp (g : Generator) (ts s : ℕ)
    (hcfg : g.config = Config.new .Second) :
    ∃ n, n < 2 ^ 16 ∧
      g.assemble ts s =
        (ts % 2 ^ 33) * 2 ^ 31 + n * 2 ^ 15 +
          Generator.mixVal ((s + g.persona.seq_offset) % 2 ^ 64) 15 g.persona.seq_idx
            g.persona.seq_salt ∧
      (g.mode = Mode.C → n = g.persona.node_id % 2 ^ 16) := by
  have hsv := mixVal_lt ((s + g.persona.seq_offset) % 2 ^ 64) 15 g.persona.seq_idx
    g.persona.seq_salt
  set sv := Generator.mixVal ((s + g.persona.seq_offset) % 2 ^ 64) 15 g.persona.seq_idx
    g.persona.seq_salt with hsvdef
  set mn := if g.mode = Mode.C then g.persona.node_id &&& ((1 <<< 16) - 1)
    else Generator.mixVal g.persona.node_id 16 g.persona.node_idx g.persona.node_salt
    with hmndef
  have hmn : mn &&& ((1 <<< 16) - 1) = mn ∧ mn < 2 ^ 16 := by
    rw [hmndef]
    split
    · constructor
      · rw [Nat.and_assoc, Nat.and_self]
      · exact Nat.and_lt_two_pow _ (by norm_num [Nat.shiftLeft_eq])
    · exact ⟨mixVal_mod_cancel .., mixVal_lt ..⟩
  refine ⟨mn, hmn.2, ?_, ?_⟩
  · unfold Generator.assemble
    rw [hcfg]
    simp only [Config.new, ← hmndef, ← hsvdef]
    have hts : ts &&& ((1 <<< 33) - 1) = ts % 2 ^ 33 := by
      norm_num [Nat.shiftLeft_eq]
      rw [show (8589934591 : ℕ) = 2 ^ 33 - 1 by norm_num, Nat.and_pow_two_sub_one_eq_mod]
    rw [hmn.1, hts]
    have h1 : (ts % 2 ^ 33) <<< (16 + 15) % 2 ^ 64 = (ts % 2 ^ 33) * 2 ^ 31 := by
      rw [Nat.shiftLeft_eq]
      exact Nat.mod_eq_of_lt (by
        have := Nat.mod_lt ts (show 0 < 2 ^ 33 by norm_num)
        calc ts % 2 ^ 33 * 2 ^ (16 + 15) < 2 ^ 33 * 2 ^ 31 :=
          (Nat.mul_lt_mul_right (by norm_num)).mpr this
        _ = 2 ^ 64 := by norm_num)
    have h2 : mn <<< 15 % 2 ^ 64 = mn * 2 ^ 15 := by
      rw [Nat.shiftLeft_eq]
      exact Nat.mod_eq_of_lt (by
        calc mn * 2 ^ 15 < 2 ^ 16 * 2 ^ 15 := (Nat.mul_lt_mul_right (by norm_num)).mpr hmn.2
        _ ≤ 2 ^ 64 := by norm_num)
    rw [h1, h2]
    have hsv' : sv &&& ((1 <<< 15) - 1) = sv := mixVal_mod_cancel ..
    rw [hsv']
    have hor1 : (ts % 2 ^ 33) * 2 ^ 31 ||| mn * 2 ^ 15 =
        (ts % 2 ^ 33) * 2 ^ 31 + mn * 2 ^ 15 := by
      rw [mul_comm ((ts % 2 ^ 33)) (2 ^ 31)]
      rw [← Nat.mul_add_lt_is_or (b := mn * 2 ^ 15) (i := 31)
        (by calc mn * 2 ^ 15 < 2 ^ 16 * 2 ^ 15 := (Nat.mul_lt_mul_right (by norm_num)).mpr hmn.2
            _ = 2 ^ 31 := by norm_num) (ts % 2 ^ 33)]
    have hor2 : (ts % 2 ^ 33) * 2 ^ 31 + mn * 2 ^ 15 ||| sv =
        (ts % 2 ^ 33) * 2 ^ 31 + mn * 2 ^ 15 + sv := by
      have hrw : (ts % 2 ^ 33) * 2 ^ 31 + mn * 2 ^ 15 =
          2 ^ 15 * ((ts % 2 ^ 33) * 2 ^ 16 + mn) := by ring
      rw [hrw, ← Nat.mul_add_lt_is_or (b := sv) (i := 15) hsv _]
    rw [hor1, hor2]
  · intro hC
    rw [hmndef, if_pos hC]
    have hsh : (1 <<< 16 : ℕ) - 1 = 2 ^ 16 - 1 := by norm_num [Nat.shiftLeft_eq]
    rw [hsh, Nat.and_pow_two_sub_one_eq_mod]

/-- Field extraction undoes the packing of `assemble_decomp`. -/
theorem fields_of_packed (t' n sv : ℕ) (hn : n < 2 ^ 16)
    (hsv : sv < 2 ^ 15) :
    timeFieldS (t' * 2 ^ 31 + n * 2 ^ 15 + sv) = t' ∧
      nodeFieldS (t' * 2 ^ 31 + n * 2 ^ 15 + sv) = n ∧
      seqFieldS (t' * 2 ^ 31 + n * 2 ^ 15 + sv) = sv := by
  have hN : NODE_MASK = 2 ^ 16 - 1 := by
    norm_num [NODE_MASK, NODE_BITS, Nat.shiftLeft_eq]
  have hS : SEQ_MASK = 2 ^ 15 - 1 := by
    norm_num [SEQ_MASK, SEQ_BITS, Nat.shiftLeft_eq]
  unfold timeFieldS nodeFieldS seqFieldS
  rw [hN, hS, Nat.and_pow_two_sub_one_eq_mod, Nat.and_pow_two_sub_one_eq_mod,
    Nat.shiftRight_eq_div_pow, Nat.shiftRight_eq_div_pow]
  norm_num [NODE_BITS, SEQ_BITS]
  omega

/-- `generate_at` never changes the mode or the configuration. -/
theorem generate_at_mode_config (g : Generator) (t pool : ℕ) :
    ((g.generate_at t pool).2).mode = g.mode ∧
      ((g.generate_at t pool).2).config = g.config := by
  obtain ⟨p, l, s, m, c⟩ := g
  cases m <;>
    simp only [Generator.generate_at, Generator.rotate_persona] <;>
    split_ifs <;> simp

/-- The id returned by `generate_at` is the assembly, in the post-call
state, of the requested tick and the post-call sequence. -/
theorem generate_at_fst (g : Generator) (t pool : ℕ) :
    (g.generate_at t pool).1 =
      ((g.generate_at t pool).2).assemble t ((g.generate_at t pool).2).sequence := by
  obtain ⟨p, l, s, m, c⟩ := g
  cases m <;>
    simp only [Generator.generate_at, Generator.rotate_persona] <;>
    split_ifs <;> simp

/-- In Mode C, `generate_at` never touches the node id: both overflow and
rollback handlers are empty. -/
theorem generate_at_modeC_node (g : Generator) (t pool : ℕ) (hC : g.mode = Mode.C) :
    ((g.generate_at t pool).2).persona.node_id = g.persona.node_id := by
  obtain ⟨p, l, s, m, c⟩ := g
  cases m
  · exact absurd hC (by simp)
  · exact absurd hC (by simp)
  · simp only [Generator.generate_at]
    split_ifs <;> simp

/-- `rotate_params_only` preserves the node id, the mode and the config. -/
theorem rotate_params_only_frame (g : Generator) (pool : ℕ) :
    (g.rotate_params_only pool).persona.node_id = g.persona.node_id ∧
      (g.rotate_params_only pool).mode = g.mode ∧
      (g.rotate_params_only pool).config = g.config := by
  simp [Generator.rotate_params_only]

/-- The node field of any id assembled by a second-precision Mode C
generator is the raw (unmixed) node id. -/
theorem nodeField_modeC (g : Generator) (ts s : ℕ)
    (hcfg : g.config = Config.new .Second) (hC : g.mode = Mode.C)
    (hn : g.persona.node_id < 2 ^ 16) :
    nodeFieldS (g.assemble ts s) = g.persona.node_id := by
  obtain ⟨n, hn16, heq, hCn⟩ := assemble_decomp g ts s hcfg
  rw [heq]
  rw [(fields_of_packed (ts % 2 ^ 33) n _ hn16 (mixVal_lt ..)).2.1, hCn hC,
    Nat.mod_eq_of_lt hn]

/-- Invariant run for claim C1: along any operation sequence, a Mode C
second-precision generator keeps its node id, and every emitted id carries
it in the node field. -/
theorem runOps_modeC_invariant (ops : List OpC) :
    ∀ g : Generator, g.mode = Mode.C → g.config = Config.new .Second →
      g.persona.node_id < 2 ^ 16 →
      ((runOps g ops).2.mode = Mode.C ∧
        (runOps g ops).2.config = Config.new .Second ∧
        (runOps g ops).2.persona.node_id = g.persona.node_id) ∧
      ∀ id ∈ (runOps g ops).1, nodeFieldS id = g.persona.node_id := by
  induction ops with
  | nil =>
    intro g h1 h2 _
    exact ⟨⟨h1, h2, rfl⟩, by simp [runOps]⟩
  | cons op ops ih =>
    intro g hC hcfg hn
    cases op with
    | genAt t pool =>
      have hmc := generate_at_mode_config g t pool
      have hnode := generate_at_modeC_node g t pool hC
      have hstep := ih ((g.generate_at t pool).2) (hmc.1.trans hC)
        (hmc.2.trans hcfg) (hnode ▸ hn)
      have hid : nodeFieldS (g.generate_at t pool).1 = g.persona.node_id := by
        rw [generate_at_fst]
        rw [nodeField_modeC _ _ _ (hmc.2.trans hcfg) (hmc.1.trans hC) (hnode ▸ hn), hnode]
      refine ⟨?_, ?_⟩
      · simp only [runOps]
        constructor
        · exact (hstep.1.1)
        exact ⟨hstep.1.2.1, hstep.1.2.2.trans hnode⟩
      · intro id hid2
        simp only [runOps, List.mem_cons] at hid2
        rcases hid2 with h | h
        · rw [h]; exact hid
        · exact (hstep.2 id h).trans hnode
    | rotParams pool =>
      have hf := rotate_params_only_frame g pool
      have hstep := ih (g.rotate_params_only pool) (hf.2.1.trans hC)
        (hf.2.2.trans hcfg) (hf.1 ▸ hn)
      simp only [runOps]
      exact ⟨⟨hstep.1.1, hstep.1.2.1, hstep.1.2.2.trans hf.1⟩,
        fun id h => (hstep.2 id h).trans hf.1⟩

/-- Claim C1: for every generator constructed via `new_mode_c` with shard id
`s < 2^node_bits`, every id returned by `generate_at` — over any sequence of
`generate_at` and `rotate_params_only` calls, for any tick arguments and RNG
draws — satisfies `(id >>> seq_bits) &&& node_mask = s`: the node field is
packed raw in Mode C and rotation never alters the node id. -/
theorem c1_modeC_routing_invariant (s pool0 : ℕ) (ops : List OpC)
    (hs : s < 2 ^ NODE_BITS) :
    ∀ id ∈ (runOps (Generator.new_mode_c pool0 s) ops).1,
      (id >>> SEQ_BITS) &&& NODE_MASK = s := by
  have hs16 : s < 2 ^ 16 := by simpa [NODE_BITS] using hs
  have h := runOps_modeC_invariant ops (Generator.new_mode_c pool0 s) rfl rfl
    (by simpa [Generator.new_mode_c] using hs16)
  intro id hm
  have h2 := h.2 id hm
  simpa [nodeFieldS, Generator.new_mode_c] using h2

theorem c1_modeC_routing_invariant_witness :
    7 < 2 ^ NODE_BITS ∧
      (((runOps (Generator.new_mode_c 0 7)
            [OpC.genAt 100 0, OpC.rotParams 5, OpC.genAt 100 3]).1.getD 0 0 >>>
          SEQ_BITS) &&& NODE_MASK = 7) :=
  ⟨by decide,
    c1_modeC_routing_invariant 7 0 [OpC.genAt 100 0, OpC.rotParams 5, OpC.genAt 100 3]
      (by decide) _ (by decide)⟩

/-- Claim C2: for every bit width `1 ≤ bits ≤ 63`, every multiplier index and
every fixed salt, `val ↦ mix val bits p_idx salt` is injective on
`[0, 2^bits)`: the normalized multiplier is forced odd, hence a unit modulo
`2^bits`. -/
theorem c2_mix_bijective (bits p_idx salt : ℕ) (h0 : 1 ≤ bits) (h1 : bits ≤ 63) :
    ∀ x y, x < 2 ^ bits → y < 2 ^ bits →
      Generator.mix x bits p_idx salt = Generator.mix y bits p_idx salt → x = y := by
  intro x y hx hy h
  rw [Generator.mix_eq_some _ _ _ _ (by omega) (by omega),
    Generator.mix_eq_some _ _ _ _ (by omega) (by omega)] at h
  exact (mixVal_inj bits p_idx salt (by omega) (Option.some.inj h)).eq_of_lt_of_lt hx hy

theorem c2_mix_bijective_witness :
    (2 : ℕ) < 2 ^ 8 ∧ (7 : ℕ) < 2 ^ 8 ∧
      (Generator.mix 2 8 0 5 = Generator.mix 7 8 0 5 → 2 = 7) :=
  ⟨by decide, by decide,
    c2_mix_bijective 8 0 5 (by decide) (by decide) 2 7 (by decide) (by decide)⟩

/-- Claim C7: `generate_chrono32y` stays strictly below `2^31` for every
wall-clock time and entropy draw: the year field is masked to 8 bits and the
entropy suffix to 23 bits. -/
theorem c7_chrono32y_signed_safe (now_secs entropy_draw : ℕ) :
    generate_chrono32y now_secs entropy_draw < 2 ^ 31 := by
  unfold generate_chrono32y
  apply Nat.or_lt_two_pow
  · have hy : (now_secs - 1577836800) / 31557600 &&& 0xFF ≤ 0xFF := Nat.and_le_right
    calc ((now_secs - 1577836800) / 31557600 &&& 0xFF) <<< 23
        = ((now_secs - 1577836800) / 31557600 &&& 0xFF) * 2 ^ 23 := Nat.shiftLeft_eq ..
      _ ≤ 0xFF * 2 ^ 23 := Nat.mul_le_mul_right _ hy
      _ < 2 ^ 31 := by norm_num
  · exact lt_trans (Nat.and_lt_two_pow _ (show (0x7FFFFF : ℕ) < 2 ^ 23 by norm_num))
      (by norm_num)

/-- Claim C8: `mix` returns normally for every width `0 < bits ≤ 63`, but for
`bits = 64` the mask computation `(1u64 << 64) - 1` overflows before the
dedicated 64-bit multiplier branch can run, so `mix` carries the implicit
precondition `bits < 64`. -/
theorem c8_mix_bits_precondition (val p_idx salt : ℕ) :
    (∀ bits, 0 < bits → bits ≤ 63 →
        (Generator.mix val bits p_idx salt).isSome = true) ∧
      Generator.mix val 64 p_idx salt = none := by
  constructor
  · intro bits hb0 hb1
    rw [Generator.mix_eq_some _ _ _ _ hb0 (by omega)]
    rfl
  · simp [Generator.mix, shlChecked]

theorem c8_mix_bits_precondition_witness :
    (Generator.mix 3 8 0 5).isSome = true ∧ Generator.mix 3 64 0 5 = none :=
  ⟨(c8_mix_bits_precondition 3 0 5).1 8 (by decide) (by decide),
    (c8_mix_bits_precondition 3 0 5).2⟩

/-- Claim C9: a rollback call (`t < last_tick`) leaves `last_tick` unchanged
and applies the mode handler: Mode A draws a whole fresh persona, Mode B
advances the node id one Weyl step, Mode C leaves the persona untouched; the
sequence is incremented, and since `last_tick` keeps its larger value every
subsequent call at the rolled-back tick takes the rollback branch again. -/
theorem c9_rollback_keeps_last_tick (g : Generator) (t pool : ℕ)
    (h : t < g.last_ts) :
    ((g.generate_at t pool).2).last_ts = g.last_ts ∧
      ((g.generate_at t pool).2).sequence =
        (g.sequence + 1) &&& ((1 <<< g.config.seq_bits) - 1) ∧
      (g.mode = Mode.A → ((g.generate_at t pool).2).persona = Persona.new_random pool) ∧
      (g.mode = Mode.B → ((g.generate_at t pool).2).persona =
        { g.persona with node_id := modeBNodeStep g.config.node_bits g.persona.node_id }) ∧
      (g.mode = Mode.C → ((g.generate_at t pool).2).persona = g.persona) ∧
      t < ((g.generate_at t pool).2).last_ts := by
  obtain ⟨p, l, s, m, c⟩ := g
  simp only at h
  have h1 : ¬ t > l := by omega
  have h2 : ¬ t = l := by omega
  cases m <;>
    simp [Generator.generate_at, h1, h2, h, Generator.rotate_persona]

theorem c9_rollback_keeps_last_tick_witness :
    3 < (((Generator.new 0).generate_at 5 0).2).last_ts ∧
      (((((Generator.new 0).generate_at 5 0).2).generate_at 3 0).2).last_ts =
        (((Generator.new 0).generate_at 5 0).2).last_ts :=
  ⟨by decide, (c9_rollback_keeps_last_tick _ 3 0 (by decide)).1⟩

/-- Claim C10: a tick-advancing call (`t > last_tick`) mutates only
`last_tick` (to `t`) and `sequence` (to 0) — the persona is untouched — and
returns the assembly of tick `t` with sequence 0. -/
theorem c10_tick_advance_frame (g : Generator) (t pool : ℕ) (h : t > g.last_ts) :
    (g.generate_at t pool).2 = { g with last_ts := t, sequence := 0 } ∧
      (g.generate_at t pool).1 = g.assemble t 0 := by
  obtain ⟨p, l, s, m, c⟩ := g
  simp only at h
  simp [Generator.generate_at, h, Generator.assemble]

theorem c10_tick_advance_frame_witness :
    (5 : ℕ) > (Generator.new 0).last_ts ∧
      ((Generator.new 0).generate_at 5 0).2 =
        { Generator.new 0 with last_ts := 5, sequence := 0 } :=
  ⟨by decide, (c10_tick_advance_frame (Generator.new 0) 5 0 (by decide)).1⟩

/-- The entropy suffix of a tenant id is the counter value the call
consumed. -/
theorem chrono32y_mode_b_suffix (now_secs s : ℕ) (hs : s < 2 ^ 24) :
    (generate_chrono32y_mode_b now_secs s).1 &&& MASK32 = s := by
  unfold generate_chrono32y_mode_b
  simp only
  have hM : MASK32 = 2 ^ 24 - 1 := by norm_num [MASK32]
  have hs32 : s % 2 ^ 32 = s := Nat.mod_eq_of_lt (by omega)
  rw [hM, Nat.and_distrib_right, Nat.and_pow_two_sub_one_eq_mod,
    Nat.and_pow_two_sub_one_eq_mod, Nat.shiftLeft_eq, Nat.mul_mod_left, hs32,
    Nat.mod_eq_of_lt hs]
  simp

/-- Closed form of the tenant counter after `i` calls. -/
theorem chrono32ySeqAt_closed (init : ℕ) (hinit : init < 2 ^ 24) (i : ℕ) :
    chrono32ySeqAt init i = (init + i * STEP32) % 2 ^ 24 := by
  induction i with
  | zero => simp only [chrono32ySeqAt, Nat.zero_mul, Nat.add_zero]; omega
  | succ i ih =>
    have hS : STEP32 = 10368891 := by decide
    have hM : MASK32 = 2 ^ 24 - 1 := by norm_num [MASK32]
    calc chrono32ySeqAt init (i + 1)
        = chrono32yStep ((init + i * STEP32) % 2 ^ 24) := by
          rw [chrono32ySeqAt, ih]
      _ = ((init + i * STEP32) % 2 ^ 24 + STEP32) % 2 ^ 24 := by
          unfold chrono32yStep
          rw [hM, Nat.and_pow_two_sub_one_eq_mod,
            Nat.mod_eq_of_lt (show (init + i * STEP32) % 2 ^ 24 + STEP32 < 2 ^ 64 by
              rw [hS]
              have := Nat.mod_lt (init + i * 10368891) (show 0 < 2 ^ 24 by norm_num)
              omega)]
      _ = (init + (i + 1) * STEP32) % 2 ^ 24 := by rw [hS]; omega

/-- Closed form of the Mode B node id after `k` Weyl rotations (16-bit
node field of the second-precision config). -/
theorem modeBNodeStep_iterate_closed (n0 : ℕ) (h0 : n0 < 2 ^ 16) (k : ℕ) :
    (modeBNodeStep NODE_BITS)^[k] n0 = (n0 + k * 45131) % 2 ^ 16 := by
  have hstep : ∀ x, x < 2 ^ 16 → modeBNodeStep NODE_BITS x = (x + 45131) % 2 ^ 16 := by
    intro x hx
    have h1 : ((3535253579 : ℕ) &&& (2 ^ 16 - 1)) ||| 1 = 45131 := by decide
    have h2 : (1 <<< NODE_BITS : ℕ) - 1 = 2 ^ 16 - 1 := by decide
    simp only [modeBNodeStep, h2, h1]
    rw [Nat.mod_eq_of_lt (show x + 45131 < 2 ^ 64 by omega),
      Nat.and_pow_two_sub_one_eq_mod]
  induction k with
  | zero => simp only [Function.iterate_zero, id_eq, Nat.zero_mul, Nat.add_zero]; omega
  | succ k ih =>
    rw [Function.iterate_succ_apply', ih,
      hstep _ (Nat.mod_lt _ (by norm_num))]
    omega

/-- Counterexample to claim C3 as stated for the 64-bit core: on a concrete
Mode B generator, among `2^node_bits` consecutive ids generated at the fixed
tick 1000, the node field does not visit every 16-bit value exactly once —
the first two ids already share their node field, since the node id only
advances when the 15-bit sequence wraps. -/
theorem c3_counterexample :
    ¬ (∀ v, v < 2 ^ 16 →
        ∃! i, i < 2 ^ 16 ∧
          nodeFieldS
            ((runIds 1000 (fun _ => 0) 65536 0 (Generator.new_mode_b 0)).getD i 0) = v) := by
  intro h
  obtain ⟨i, _, huniq⟩ :=
    h (nodeFieldS ((runIds 1000 (fun _ => 0) 65536 0 (Generator.new_mode_b 0)).getD 0 0))
      (by decide)
  have h0 := huniq 0 ⟨by decide, rfl⟩
  have h1 := huniq 1 ⟨by decide, by decide⟩
  omega

/-- Claim C3, amended: the tenant family behaves as claimed — `2^24`
consecutive `generate_chrono32y_mode_b` calls at a fixed time visit every
24-bit suffix exactly once — while for the 64-bit core the full period holds
per node rotation, not per id: the Mode B node id visits every
`2^node_bits` value exactly once over `2^node_bits` consecutive Weyl
rotations (one rotation per `2^seq_bits` same-tick ids). -/
theorem c3_full_period_amended :
    (∀ now_secs init, init < 2 ^ 24 → ∀ v, v < 2 ^ 24 →
        ∃! i, i < 2 ^ 24 ∧
          (generate_chrono32y_mode_b now_secs (chrono32ySeqAt init i)).1 &&& MASK32 = v) ∧
      (∀ n0, n0 < 2 ^ 16 → ∀ v, v < 2 ^ 16 →
        ∃! k, k < 2 ^ 16 ∧ (modeBNodeStep NODE_BITS)^[k] n0 = v) := by
  constructor
  · intro now_secs init hinit v hv
    have hsuffix : ∀ i : ℕ,
        (generate_chrono32y_mode_b now_secs (chrono32ySeqAt init i)).1 &&& MASK32 =
          (init + i * STEP32) % 2 ^ 24 := by
      intro i
      rw [chrono32ySeqAt_closed init hinit i]
      exact chrono32y_mode_b_suffix now_secs _ (Nat.mod_lt _ (by norm_num))
    obtain ⟨i, hi, huniq⟩ :=
      weyl_orbit_existsUnique 24 STEP32 init (by decide) hv
    exact ⟨i, ⟨hi.1, by rw [hsuffix]; exact hi.2⟩,
      fun j hj => huniq j ⟨hj.1, by rw [← hsuffix]; exact hj.2⟩⟩
  · intro n0 h0 v hv
    obtain ⟨k, hk, huniq⟩ := weyl_orbit_existsUnique 16 45131 n0 (by decide) hv
    exact ⟨k, ⟨hk.1, by rw [modeBNodeStep_iterate_closed n0 h0]; exact hk.2⟩,
      fun j hj => huniq j ⟨hj.1, by rw [← modeBNodeStep_iterate_closed n0 h0]; exact hj.2⟩⟩

theorem c3_full_period_amended_witness :
    12345 < 2 ^ 24 ∧ 54321 < 2 ^ 24 ∧
      (∃! i, i < 2 ^ 24 ∧
        (generate_chrono32y_mode_b 1700000000 (chrono32ySeqAt 12345 i)).1 &&& MASK32 =
          54321) :=
  ⟨by decide, by decide,
    c3_full_period_amended.1 1700000000 12345 (by decide) 54321 (by decide)⟩

/-- `assemble` reads only the persona, mode and config: updating the tick
and sequence state does not change it. -/
theorem assemble_state_invariant (g : Generator) (x y ts s : ℕ) :
    ({ g with last_ts := y, sequence := x } : Generator).assemble ts s =
      g.assemble ts s := rfl

/-- The sequence field of a second-precision id is the mixed sequence. -/
theorem seqField_assemble (g : Generator) (ts s : ℕ)
    (hcfg : g.config = Config.new .Second) :
    seqFieldS (g.assemble ts s) =
      Generator.mixVal ((s + g.persona.seq_offset) % 2 ^ 64) 15 g.persona.seq_idx
        g.persona.seq_salt := by
  obtain ⟨n, hn, heq, -⟩ := assemble_decomp g ts s hcfg
  rw [heq]
  exact (fields_of_packed (ts % 2 ^ 33) n _ hn (mixVal_lt ..)).2.2

/-- The time field of a second-precision id is the tick, reduced to 33
bits. -/
theorem timeField_assemble (g : Generator) (ts s : ℕ)
    (hcfg : g.config = Config.new .Second) :
    timeFieldS (g.assemble ts s) = ts % 2 ^ 33 := by
  obtain ⟨n, hn, heq, -⟩ := assemble_decomp g ts s hcfg
  rw [heq]
  exact (fields_of_packed (ts % 2 ^ 33) n _ hn (mixVal_lt ..)).1

/-- Two same-tick assemblies with the same persona and small distinct
sequence values differ. -/
theorem assemble_seq_inj (g : Generator) (ts : ℕ)
    (hcfg : g.config = Config.new .Second) (hoff : g.persona.seq_offset < 2 ^ 15)
    {s1 s2 : ℕ} (hs1 : s1 < 2 ^ 15) (hs2 : s2 < 2 ^ 15)
    (h : g.assemble ts s1 = g.assemble ts s2) : s1 = s2 := by
  have h1 := seqField_assemble g ts s1 hcfg
  have h2 := seqField_assemble g ts s2 hcfg
  rw [h, h2] at h1
  have hm1 : (s1 + g.persona.seq_offset) % 2 ^ 64 = s1 + g.persona.seq_offset :=
    Nat.mod_eq_of_lt (by omega)
  have hm2 : (s2 + g.persona.seq_offset) % 2 ^ 64 = s2 + g.persona.seq_offset :=
    Nat.mod_eq_of_lt (by omega)
  rw [hm1, hm2] at h1
  have hme := mixVal_inj 15 g.persona.seq_idx g.persona.seq_salt (by norm_num) h1.symm
  have := Nat.ModEq.add_right_cancel' g.persona.seq_offset hme
  exact this.eq_of_lt_of_lt hs1 hs2

/-- A same-tick Mode A call that does not wrap the sequence: it increments
the sequence and assembles, leaving everything else alone. -/
theorem generate_at_same_tick (g : Generator) (t pool : ℕ) (hA : g.mode = Mode.A)
    (hcfg : g.config = Config.new .Second) (hlast : g.last_ts = t)
    (hseq : g.sequence + 1 ≤ 32767) :
    g.generate_at t pool =
      (g.assemble t (g.sequence + 1), { g with sequence := g.sequence + 1 }) := by
  obtain ⟨p, l, s, m, c⟩ := g
  simp only at hA hcfg hlast hseq
  subst hA hcfg hlast
  have hmask : (1 <<< (15 : ℕ)) - 1 = 2 ^ 15 - 1 := by decide
  have hand : (s + 1) &&& ((1 <<< (15 : ℕ)) - 1) = s + 1 := by
    rw [hmask, Nat.and_pow_two_sub_one_eq_mod]
    exact Nat.mod_eq_of_lt (by omega)
  simp only [Generator.generate_at, Config.new, hand, lt_irrefl, gt_iff_lt, if_false,
    if_pos rfl]
  simp [Nat.add_eq_zero]
  rfl

/-- Ids and final state of a same-tick non-wrapping Mode A run. -/
theorem runIds_same_tick (t : ℕ) (pools : ℕ → ℕ) (k : ℕ) :
    ∀ c (g : Generator), g.mode = Mode.A → g.config = Config.new .Second →
      g.last_ts = t → g.sequence + k ≤ 32767 →
      runIds t pools k c g =
        (List.range k).map (fun i => g.assemble t (g.sequence + i + 1)) ∧
      runState t pools k c g = { g with sequence := g.sequence + k } := by
  induction k with
  | zero =>
    intro c g _ _ _ _
    constructor
    · simp [runIds]
    · simp only [runState]
      obtain ⟨p, l, s, m, cf⟩ := g
      simp
  | succ k ih =>
    intro c g hA hcfg hlast hseq
    have hstep := generate_at_same_tick g t (pools c) hA hcfg hlast (by omega)
    have hrec := ih (c + 1) { g with sequence := g.sequence + 1 } hA hcfg hlast (by
      show g.sequence + 1 + k ≤ 32767
      omega)
    constructor
    · rw [runIds, hstep]
      simp only
      rw [hrec.1, List.range_succ_eq_map, List.map_cons, List.map_map]
      refine List.cons_eq_cons.mpr ⟨?_, ?_⟩
      · show g.assemble t (g.sequence + 1) = g.assemble t (g.sequence + 0 + 1)
        norm_num
      · apply List.map_congr_left
        intro i _
        show ({ g with sequence := g.sequence + 1 } : Generator).assemble t
            (g.sequence + 1 + i + 1) =
          g.assemble t (g.sequence + Nat.succ i + 1)
        rw [show ({ g with sequence := g.sequence + 1 } : Generator).assemble =
          g.assemble from rfl]
        congr 1
        omega
    · rw [runState, hstep]
      simp only
      rw [hrec.2]
      show ({ g with sequence := g.sequence + 1 + k } : Generator) =
        { g with sequence := g.sequence + (k + 1) }
      rw [show g.sequence + 1 + k = g.sequence + (k + 1) by omega]

/-- Every id of a `runIds` run is an assembly, at the requested tick, by a
generator with the same config. -/
theorem runIds_mem_shape (t : ℕ) (pools : ℕ → ℕ) (k : ℕ) :
    ∀ c (g : Generator), ∀ id ∈ runIds t pools k c g,
      ∃ g' : Generator, ∃ s', g'.config = g.config ∧ id = g'.assemble t s' := by
  induction k with
  | zero => intro c g id h; simp [runIds] at h
  | succ k ih =>
    intro c g id h
    rw [runIds] at h
    rcases List.mem_cons.mp h with h1 | h1
    · refine ⟨(g.generate_at t (pools c)).2, (g.generate_at t (pools c)).2.sequence,
        (generate_at_mode_config g t (pools c)).2, ?_⟩
      rw [h1]
      exact generate_at_fst g t (pools c)
    · obtain ⟨g', s', hc, he⟩ := ih (c + 1) (g.generate_at t (pools c)).2 id h1
      exact ⟨g', s', hc.trans (generate_at_mode_config g t (pools c)).2, he⟩

/-- `runIds` produces exactly `k` ids. -/
theorem runIds_length (t : ℕ) (pools : ℕ → ℕ) (k : ℕ) :
    ∀ c g, (runIds t pools k c g).length = k := by
  induction k with
  | zero => intro c g; simp [runIds]
  | succ k ih => intro c g; rw [runIds]; simp [ih]

theorem runIds_succ (t : ℕ) (pools : ℕ → ℕ) (k c : ℕ) (g : Generator) :
    runIds t pools (k + 1) c g =
      (g.generate_at t (pools c)).1 ::
        runIds t pools k (c + 1) (g.generate_at t (pools c)).2 := rfl

theorem runState_succ (t : ℕ) (pools : ℕ → ℕ) (k c : ℕ) (g : Generator) :
    runState t pools (k + 1) c g =
      runState t pools k (c + 1) (g.generate_at t (pools c)).2 := rfl

theorem rollbackIds_eq (p0 : ℕ) (pools : ℕ → ℕ) :
    rollbackIds p0 pools =
      runIds 100 pools 10 0 (Generator.new p0) ++
        ((runState 100 pools 10 0 (Generator.new p0)).generate_at 101 (pools 10)).1 ::
          runIds 100 pools 1000 11
            ((runState 100 pools 10 0 (Generator.new p0)).generate_at 101 (pools 10)).2 := by
  simp only [rollbackIds]

theorem new_random_seq_offset_lt (pool : ℕ) :
    (Persona.new_random pool).seq_offset < 2 ^ 15 := by
  unfold Persona.new_random
  simp only
  exact Nat.and_lt_two_pow _ (by decide)

/-- The first rollback-scenario phase: ten ids at tick 100, sequences 0–9,
all assembled with the initial persona. -/
theorem rollback_phase1 (p0 : ℕ) (pools : ℕ → ℕ) :
    runIds 100 pools 10 0 (Generator.new p0) =
      (Generator.new p0).assemble 100 0 ::
        (List.range 9).map (fun i => (Generator.new p0).assemble 100 (i + 1)) ∧
      runState 100 pools 10 0 (Generator.new p0) =
        { Generator.new p0 with last_ts := 100, sequence := 9 } := by
  have hadv := c10_tick_advance_frame (Generator.new p0) 100 (pools 0)
    (by show (100 : ℕ) > 0; norm_num)
  have hrun := runIds_same_tick 100 pools 9 1
    { Generator.new p0 with last_ts := 100, sequence := 0 } rfl rfl rfl
    (by show 0 + 9 ≤ 32767; norm_num)
  constructor
  · rw [runIds_succ, hadv.1, hadv.2, hrun.1]
    refine List.cons_eq_cons.mpr ⟨rfl, ?_⟩
    apply List.map_congr_left
    intro i _
    show ({ Generator.new p0 with last_ts := 100, sequence := 0 } : Generator).assemble
        100 (0 + i + 1) =
      (Generator.new p0).assemble 100 (i + 1)
    rw [show ({ Generator.new p0 with last_ts := 100, sequence := 0 } :
      Generator).assemble = (Generator.new p0).assemble from rfl]
    congr 1
    omega
  · rw [runState_succ, hadv.1, hrun.2]

/-- The tick-advance call at 101 in the rollback scenario. -/
theorem rollback_id101 (p0 : ℕ) (pools : ℕ → ℕ) :
    ((runState 100 pools 10 0 (Generator.new p0)).generate_at 101 (pools 10)).1 =
      (Generator.new p0).assemble 101 0 ∧
      ((runState 100 pools 10 0 (Generator.new p0)).generate_at 101 (pools 10)).2 =
        { Generator.new p0 with last_ts := 101, sequence := 0 } := by
  rw [(rollback_phase1 p0 pools).2]
  have h := c10_tick_advance_frame
    { Generator.new p0 with last_ts := 100, sequence := 9 } 101 (pools 10)
    (by show (101 : ℕ) > 100; norm_num)
  exact ⟨h.2, h.1⟩

/-- Claim C4, amended: in the rollback scenario the first eleven ids
(tick 100 with sequences 0–9, then tick 101) are pairwise distinct for every
RNG outcome, and no tick-100 id — including every post-rollback id — can
equal the tick-101 id, because the time field differs; but the full set of
1011 ids is not distinct for every outcome of the persona draws (see the
counterexample): a rollback draw can reproduce the initial persona, at which
point a post-rollback sequence value that repeats a phase-one sequence value
reproduces the id bit for bit. -/
theorem c4_rollback_amended (p0 : ℕ) (pools : ℕ → ℕ) :
    ((rollbackIds p0 pools).take 11).Nodup ∧
      ∀ x ∈ (rollbackIds p0 pools).take 10 ++ (rollbackIds p0 pools).drop 11,
        some x ≠ (rollbackIds p0 pools)[10]? := by
  have hlen1 : (runIds 100 pools 10 0 (Generator.new p0)).length = 10 :=
    runIds_length 100 pools 10 0 (Generator.new p0)
  have hids1 := (rollback_phase1 p0 pools).1
  have hid101 := rollback_id101 p0 pools
  have hoff : (Generator.new p0).persona.seq_offset < 2 ^ 15 :=
    new_random_seq_offset_lt p0
  have htF : ∀ x ∈ runIds 100 pools 10 0 (Generator.new p0), timeFieldS x = 100 := by
    intro x hx
    rw [hids1] at hx
    rcases List.mem_cons.mp hx with h | h
    · rw [h, timeField_assemble _ _ _ rfl]
      norm_num
    · obtain ⟨s, -, rfl⟩ := List.mem_map.mp h
      rw [timeField_assemble _ _ _ rfl]
      norm_num
  have htF101 :
      timeFieldS ((runState 100 pools 10 0
        (Generator.new p0)).generate_at 101 (pools 10)).1 = 101 := by
    rw [hid101.1, timeField_assemble _ _ _ rfl]
    norm_num
  have h10le11 : (runIds 100 pools 10 0 (Generator.new p0)).length ≤ 11 := by
    rw [hlen1]; norm_num
  have htake11 : (rollbackIds p0 pools).take 11 =
      runIds 100 pools 10 0 (Generator.new p0) ++
        [((runState 100 pools 10 0 (Generator.new p0)).generate_at 101 (pools 10)).1] := by
    rw [rollbackIds_eq, List.take_append_eq_append_take, hlen1,
      List.take_of_length_le h10le11, show (11 : ℕ) - 10 = 1 by norm_num,
      List.take_succ_cons, List.take_zero]
  have htake10 : (rollbackIds p0 pools).take 10 =
      runIds 100 pools 10 0 (Generator.new p0) := by
    rw [rollbackIds_eq, List.take_append_eq_append_take, hlen1,
      List.take_of_length_le (le_of_eq hlen1), Nat.sub_self, List.take_zero,
      List.append_nil]
  have hdrop11 : (rollbackIds p0 pools).drop 11 =
      runIds 100 pools 1000 11
        ((runState 100 pools 10 0 (Generator.new p0)).generate_at 101 (pools 10)).2 := by
    rw [rollbackIds_eq, List.drop_append_eq_append_drop, hlen1,
      List.drop_eq_nil_of_le h10le11, List.nil_append,
      show (11 : ℕ) - 10 = 1 by norm_num, List.drop_succ_cons, List.drop_zero]
  have hget10 : (rollbackIds p0 pools)[10]? =
      some ((runState 100 pools 10 0 (Generator.new p0)).generate_at 101 (pools 10)).1 := by
    rw [rollbackIds_eq, List.getElem?_append_right (le_of_eq hlen1), hlen1,
      Nat.sub_self]
    exact List.getElem?_cons_zero
  constructor
  · rw [htake11]
    rw [List.nodup_append]
    refine ⟨?_, List.nodup_singleton _, ?_⟩
    · rw [hids1]
      rw [List.nodup_cons]
      constructor
      · intro hmem
        obtain ⟨i, hi, hie⟩ := List.mem_map.mp hmem
        have hi9 := List.mem_range.mp hi
        have := assemble_seq_inj (Generator.new p0) 100 rfl hoff
          (show i + 1 < 2 ^ 15 by omega) (show 0 < 2 ^ 15 by omega) hie
        omega
      · apply List.Nodup.map_on ?_ (List.nodup_range 9)
        intro s1 hs1 s2 hs2 h
        have hb1 : s1 + 1 < 2 ^ 15 := by have := List.mem_range.mp hs1; omega
        have hb2 : s2 + 1 < 2 ^ 15 := by have := List.mem_range.mp hs2; omega
        have := assemble_seq_inj (Generator.new p0) 100 rfl hoff hb1 hb2 h
        omega
    · intro a ha
      simp only [List.mem_singleton]
      intro heq
      have h1 := htF a ha
      rw [heq, htF101] at h1
      exact absurd h1 (by norm_num)
  · intro x hx
    rw [hget10]
    simp only [ne_eq, Option.some.injEq]
    intro heq
    rcases List.mem_append.mp hx with h | h
    · rw [htake10] at h
      have h1 := htF x h
      rw [heq, htF101] at h1
      exact absurd h1 (by norm_num)
    · rw [hdrop11] at h
      obtain ⟨g', s', hc, rfl⟩ := runIds_mem_shape 100 pools 1000 11 _ _ h
      have hc2 : g'.config = Config.new .Second := by
        rw [hc, hid101.2]
        rfl
      have h1 := timeField_assemble g' 100 s' hc2
      rw [heq, htF101] at h1
      exact absurd h1 (by norm_num)

theorem c4_rollback_amended_witness :
    ((rollbackIds 0 (fun _ => 0)).getD 0 0 ∈
        (rollbackIds 0 (fun _ => 0)).take 10 ++ (rollbackIds 0 (fun _ => 0)).drop 11) ∧
      some ((rollbackIds 0 (fun _ => 0)).getD 0 0) ≠ (rollbackIds 0 (fun _ => 0))[10]? :=
  ⟨by decide,
    (c4_rollback_amended 0 (fun _ => 0)).2 ((rollbackIds 0 (fun _ => 0)).getD 0 0)
      (by decide)⟩

/-- Counterexample to claim C4 as stated: with the RNG draw stream that is
constantly zero — a possible outcome of the random persona draws — the first
post-rollback id (position 11, tick 100, sequence 1, freshly drawn persona
equal to the initial one) is bit-for-bit equal to the second id of phase one
(position 1, tick 100, sequence 1, initial persona), so the 1011 produced
ids are not pairwise distinct for every outcome. -/
theorem c4_counterexample : ¬ (rollbackIds 0 (fun _ => 0)).Nodup := by
  intro h
  have hlen : (rollbackIds 0 (fun _ => 0)).length = 1011 := by
    rw [rollbackIds_eq, List.length_append, runIds_length, List.length_cons, runIds_length]
  have h1 : (1 : ℕ) < (rollbackIds 0 (fun _ => 0)).length := by omega
  have h11 : (11 : ℕ) < (rollbackIds 0 (fun _ => 0)).length := by omega
  have heqD : (rollbackIds 0 (fun _ => 0)).getD 1 0 =
      (rollbackIds 0 (fun _ => 0)).getD 11 0 := by decide
  have hg1 : (rollbackIds 0 (fun _ => 0)).getD 1 0 =
      (rollbackIds 0 (fun _ => 0)).get ⟨1, h1⟩ := by
    rw [List.getD_eq_getElem?_getD, List.getElem?_eq_getElem h1, Option.getD_some,
      List.get_eq_getElem]
  have hg11 : (rollbackIds 0 (fun _ => 0)).getD 11 0 =
      (rollbackIds 0 (fun _ => 0)).get ⟨11, h11⟩ := by
    rw [List.getD_eq_getElem?_getD, List.getElem?_eq_getElem h11, Option.getD_some,
      List.get_eq_getElem]
  have heq : (rollbackIds 0 (fun _ => 0)).get ⟨1, h1⟩ =
      (rollbackIds 0 (fun _ => 0)).get ⟨11, h11⟩ := by
    rw [← hg1, ← hg11]
    exact heqD
  have := congrArg Fin.val (List.nodup_iff_injective_get.mp h heq)
  simp at this

/-- Claim C5, amended: `generate` (with the wall clock as an explicit input)
agrees with `generate_at` on the derived tick — same id, same final state —
in Modes A and B unconditionally, and in Mode C whenever the call is not a
blocking one (no sequence wrap at the same tick and no rollback); when Mode
C blocks, `generate` spins and retries at a later tick while `generate_at`
returns immediately, so the two differ (see the counterexample). -/
theorem c5_generate_equiv_amended (g : Generator) (pool now : ℕ) (rest : List ℕ)
    (hC : g.mode = Mode.C →
      g.last_ts < tickOf g.config now ∨
        (tickOf g.config now = g.last_ts ∧
          (g.sequence + 1) &&& ((1 <<< g.config.seq_bits) - 1) ≠ 0)) :
    g.generateClock pool (now :: rest) =
      some (g.generate_at (tickOf g.config now) pool) := by
  obtain ⟨p, l, s, m, c⟩ := g
  simp only at hC
  cases m
  · simp only [Generator.generateClock, List.length_cons, generateClockFuel,
      Generator.generate_at]
    split_ifs <;> first | rfl | contradiction
  · simp only [Generator.generateClock, List.length_cons, generateClockFuel,
      Generator.generate_at]
    split_ifs <;> first | rfl | contradiction
  · rcases hC rfl with h | ⟨h1, h2⟩ <;>
      · simp only [Generator.generateClock, List.length_cons, generateClockFuel,
          Generator.generate_at, gt_iff_lt]
        split_ifs <;> first | rfl | contradiction | (exfalso; omega)

theorem c5_generate_equiv_amended_witness :
    (Generator.new 0).generateClock 0 [epoch_us] =
      some ((Generator.new 0).generate_at (tickOf (Generator.new 0).config epoch_us) 0) :=
  c5_generate_equiv_amended (Generator.new 0) 0 epoch_us []
    (fun h => Mode.noConfusion h)

/-- Counterexample to claim C5 as stated: a Mode C generator whose sequence
is about to wrap at the current tick.  `generate` (three clock polls: the
current second, then two polls of the next second) blocks through the spin
loop and returns an id at tick 11, while `generate_at` at the derived tick
returns an id at tick 10 — different id, different final state. -/
theorem c5_counterexample :
    ({ Generator.new_mode_c 0 3 with last_ts := 10, sequence := 32767 } :
        Generator).generateClock 0
        [epoch_us + 10 * 1000000, epoch_us + 11 * 1000000, epoch_us + 11 * 1000000] ≠
      some (({ Generator.new_mode_c 0 3 with last_ts := 10, sequence := 32767 } :
          Generator).generate_at
        (tickOf ({ Generator.new_mode_c 0 3 with last_ts := 10, sequence := 32767 } :
          Generator).config (epoch_us + 10 * 1000000)) 0) := by
  decide

theorem digit_lt_16 (x k : ℕ) : (x >>> k) &&& 15 < 16 :=
  Nat.and_lt_two_pow _ (show (15 : ℕ) < 2 ^ 4 by norm_num)

theorem hexVal_toHexChar : ∀ d, d < 16 → hexVal (toHexChar d) = some d := by decide

theorem toHexChar_ne_hyphen :
    ∀ d, d < 16 → (decide (toHexChar d ≠ Char.ofNat 45)) = true := by decide

theorem toHexChar_ne_plus : ∀ d, d < 16 → ¬ (toHexChar d = Char.ofNat 43) := by decide

theorem format_explicit (x : ℕ) :
    format_hyphenated_hex x =
      [toHexChar ((x >>> 28) &&& 15), toHexChar ((x >>> 24) &&& 15),
        toHexChar ((x >>> 20) &&& 15), toHexChar ((x >>> 16) &&& 15),
        Char.ofNat 45,
        toHexChar ((x >>> 12) &&& 15), toHexChar ((x >>> 8) &&& 15),
        toHexChar ((x >>> 4) &&& 15), toHexChar ((x >>> 0) &&& 15)] := by
  simp [format_hyphenated_hex, List.range_succ]

theorem decode_format_filter (x : ℕ) :
    (format_hyphenated_hex x).filter (fun c => c ≠ Char.ofNat 45) =
      [toHexChar ((x >>> 28) &&& 15), toHexChar ((x >>> 24) &&& 15),
        toHexChar ((x >>> 20) &&& 15), toHexChar ((x >>> 16) &&& 15),
        toHexChar ((x >>> 12) &&& 15), toHexChar ((x >>> 8) &&& 15),
        toHexChar ((x >>> 4) &&& 15), toHexChar ((x >>> 0) &&& 15)] := by
  rw [format_explicit,
    List.filter_cons_of_pos (p := fun c => decide (c ≠ Char.ofNat 45))
      (toHexChar_ne_hyphen _ (digit_lt_16 x 28)),
    List.filter_cons_of_pos (p := fun c => decide (c ≠ Char.ofNat 45))
      (toHexChar_ne_hyphen _ (digit_lt_16 x 24)),
    List.filter_cons_of_pos (p := fun c => decide (c ≠ Char.ofNat 45))
      (toHexChar_ne_hyphen _ (digit_lt_16 x 20)),
    List.filter_cons_of_pos (p := fun c => decide (c ≠ Char.ofNat 45))
      (toHexChar_ne_hyphen _ (digit_lt_16 x 16)),
    List.filter_cons_of_neg (p := fun c => decide (c ≠ Char.ofNat 45)) (by decide),
    List.filter_cons_of_pos (p := fun c => decide (c ≠ Char.ofNat 45))
      (toHexChar_ne_hyphen _ (digit_lt_16 x 12)),
    List.filter_cons_of_pos (p := fun c => decide (c ≠ Char.ofNat 45))
      (toHexChar_ne_hyphen _ (digit_lt_16 x 8)),
    List.filter_cons_of_pos (p := fun c => decide (c ≠ Char.ofNat 45))
      (toHexChar_ne_hyphen _ (digit_lt_16 x 4)),
    List.filter_cons_of_pos (p := fun c => decide (c ≠ Char.ofNat 45))
      (toHexChar_ne_hyphen _ (digit_lt_16 x 0)),
    List.filter_nil]

theorem from_str_radix16_digits (d7 d6 d5 d4 d3 d2 d1 d0 : ℕ) (h7 : d7 < 16)
    (h6 : d6 < 16) (h5 : d5 < 16) (h4 : d4 < 16) (h3 : d3 < 16) (h2 : d2 < 16)
    (h1 : d1 < 16) (h0 : d0 < 16) :
    from_str_radix16_u32
        [toHexChar d7, toHexChar d6, toHexChar d5, toHexChar d4, toHexChar d3,
          toHexChar d2, toHexChar d1, toHexChar d0] =
      some (((((((d7 * 16 + d6) * 16 + d5) * 16 + d4) * 16 + d3) * 16 + d2) * 16 + d1)
        * 16 + d0) := by
  simp only [from_str_radix16_u32, if_neg (toHexChar_ne_plus _ h7), List.foldlM_cons,
    List.foldlM_nil, hexVal_toHexChar _ h7, hexVal_toHexChar _ h6,
    hexVal_toHexChar _ h5, hexVal_toHexChar _ h4, hexVal_toHexChar _ h3,
    hexVal_toHexChar _ h2, hexVal_toHexChar _ h1, hexVal_toHexChar _ h0,
    Option.bind_eq_bind, Option.some_bind]
  repeat
    first
      | rw [if_pos (by omega)]
      | simp only [Option.some_bind, Option.pure_def]
  norm_num

/-- Claim C6: decoding the hyphenated-hex encoding of any 32-bit value,
including the boundary values 0 and 4294967295, returns the value exactly. -/
theorem c6_hyphenated_hex_roundtrip (x : ℕ) (hx : x < 2 ^ 32) :
    decode_hyphenated_hex (format_hyphenated_hex x) = some x := by
  unfold decode_hyphenated_hex
  rw [decode_format_filter,
    from_str_radix16_digits _ _ _ _ _ _ _ _ (digit_lt_16 x 28) (digit_lt_16 x 24)
      (digit_lt_16 x 20) (digit_lt_16 x 16) (digit_lt_16 x 12) (digit_lt_16 x 8)
      (digit_lt_16 x 4) (digit_lt_16 x 0)]
  congr 1
  simp only [Nat.shiftRight_eq_div_pow, show (15 : ℕ) = 2 ^ 4 - 1 from rfl,
    Nat.and_pow_two_sub_one_eq_mod]
  omega

theorem c6_hyphenated_hex_roundtrip_witness :
    4294967295 < 2 ^ 32 ∧
      decode_hyphenated_hex (format_hyphenated_hex 4294967295) = some 4294967295 ∧
      decode_hyphenated_hex (format_hyphenated_hex 0) = some 0 :=
  ⟨by decide, c6_hyphenated_hex_roundtrip 4294967295 (by decide),
    c6_hyphenated_hex_roundtrip 0 (by decide)⟩

end ChronoSim
